import Mathlib

/-!
# Verification of the `Dsys_Anal` particle-trajectory integrator

Shallow embedding of `src/src/Dsys_Anal.cpp`: a 2-D particle trajectory
integrator over a user-supplied velocity field, with a discrete time grid,
per-particle position buffers, two explicit time-marching schemes
(Explicit Euler and two-step Adams-Bashforth), console printing and JSON
export.

Modelling conventions:
* C++ `double` is modelled as exact rational arithmetic (`ℚ`): the
  specification treats all values as exact reals and no claim depends on
  rounding, and `ℚ` keeps every definition executable.
* Eigen `VectorXd` buffers are modelled as `List ℚ`; the uninitialized
  content of freshly grown slots (Eigen `resize` / `conservativeResize`
  does not zero new entries) is modelled by universally quantified
  "junk" value functions passed as explicit parameters.
* The C++ member function pointers `u`, `v` are fields of the state.
* `throw std::invalid_argument` is modelled by returning the unchanged
  state paired with `some errorMessage`.
* In-place mutation is modelled by state-passing.
-/

/-- A velocity-field component: a pure function of `(t, x, y)`. -/
abbrev Vel := ℚ → ℚ → ℚ → ℚ

/-- One particle: its position history buffers `x`, `y`
(C++ members `parts[n].x`, `parts[n].y`, Eigen `VectorXd`). -/
structure Particle where
  x : List ℚ
  y : List ℚ

instance : Inhabited Particle := ⟨⟨[], []⟩⟩

/-- The state of a `Dsys_Anal` object: time-grid fields, particle store,
readiness flags and the velocity field pointers. -/
structure Dsys where
  dt : ℚ
  tmax : ℚ
  t_count : ℕ
  t : List ℚ
  parts : List Particle
  t_set : Bool
  ic_set : Bool
  u : Vel
  v : Vel

/-- Particle `n` of the store (C++ `parts[n]`; an out-of-range read is
undefined behaviour in C++, the total model returns the empty particle). -/
def getP (s : Dsys) (n : ℕ) : Particle := s.parts.getD n default

/-- Eigen `conservativeResize m` on a vector: the new vector has length
`m`, keeps the old entries at indices below the old length, and the new
trailing slots hold unspecified memory contents, modelled by the
explicit junk function. -/
def conservativeResize (l : List ℚ) (m : ℕ) (junk : ℕ → ℚ) : List ℚ :=
  (List.range m).map fun k => if k < l.length then l.getD k 0 else junk k

/-- `Dsys_Anal::ResizeParts`: grows every particle's `x` and `y` buffer to
`t_count + 1` entries with `conservativeResize`.  `junk n k` is the
unspecified content of particle `n`'s fresh slot `k`. -/
def ResizeParts (s : Dsys) (junk : ℕ → ℕ → ℚ) : Dsys :=
  { s with parts := (List.range s.parts.length).map fun n =>
      { x := conservativeResize (getP s n).x (s.t_count + 1) (junk n),
        y := conservativeResize (getP s n).y (s.t_count + 1) (junk n) } }

/-- `Dsys_Anal::SetTime`: stores `dt`, `tmax`, computes
`t_count = (size_t)(tmax/dt + 1)` (the C++ double-to-unsigned conversion
truncates, i.e. `Nat.floor` on the non-negative range), rebuilds
`t(i) = dt * i` in full, marks the grid ready, and reallocates the
particle buffers when both readiness flags hold. -/
def SetTimeCore (s : Dsys) (dt_in tmax_in : ℚ) : Dsys :=
  { s with dt := dt_in, tmax := tmax_in, t_count := ⌊tmax_in / dt_in + 1⌋₊,
           t := (List.range ⌊tmax_in / dt_in + 1⌋₊).map
                  (fun i : ℕ => dt_in * (i : ℚ)),
           t_set := true }

/-- The tail of `Dsys_Anal::SetTime`: reallocate when both flags hold. -/
def SetTime (s : Dsys) (dt_in tmax_in : ℚ) (junk : ℕ → ℕ → ℚ) : Dsys :=
  let s' := SetTimeCore s dt_in tmax_in
  if s'.t_set && s'.ic_set then ResizeParts s' junk else s'

/-- `Dsys_Anal::SetICs`: rejects mismatched initial-condition vectors by
throwing (`(s, some msg)`, state untouched); otherwise rebuilds the store
as one particle per initial condition, each with a one-entry buffer
holding the initial position, marks the store ready, and reallocates to
final capacity when both readiness flags hold. -/
def SetICsCore (s : Dsys) (x0 y0 : List ℚ) : Dsys :=
  { s with parts := (List.range x0.length).map
             (fun n => { x := [x0.getD n 0], y := [y0.getD n 0] }),
           ic_set := true }

/-- The body of `Dsys_Anal::SetICs` (see the doc comment above). -/
def SetICs (s : Dsys) (x0 y0 : List ℚ) (junk : ℕ → ℕ → ℚ) :
    Dsys × Option String :=
  if x0.length ≠ y0.length then (s, some "Mismatched IC Vectors")
  else
    let s' := SetICsCore s x0 y0
    if s'.t_set && s'.ic_set then (ResizeParts s' junk, none) else (s', none)

/-- `Dsys_Anal::SetVel`: stores the velocity-field function pointers. -/
def SetVel (s : Dsys) (u_in v_in : Vel) : Dsys :=
  { s with u := u_in, v := v_in }

/-- A fully configured state: the time vector has `t_count` entries and
every particle's buffers have the final capacity `t_count + 1`. -/
def Ready (s : Dsys) : Prop :=
  s.t.length = s.t_count ∧
  ∀ n, n < s.parts.length →
    (getP s n).x.length = s.t_count + 1 ∧ (getP s n).y.length = s.t_count + 1

/-- Particle `n` of a raw store (same reading as `getP`). -/
def pAt (ps : List Particle) (n : ℕ) : Particle := ps.getD n default

/-- The Euler update of one particle at time index `i`, time value `ti`:
compute `u_n`, `v_n` at slot `i` and write slot `i + 1`
(`Dsys_Anal.cpp` lines 98–103 and the `i == 0` branch of `MarchAB`). -/
def eulerP (u v : Vel) (dt ti : ℚ) (i : ℕ) (p : Particle) : Particle :=
  { x := p.x.set (i + 1)
      (p.x.getD i 0 + dt * u ti (p.x.getD i 0) (p.y.getD i 0)),
    y := p.y.set (i + 1)
      (p.y.getD i 0 + dt * v ti (p.x.getD i 0) (p.y.getD i 0)) }

/-- The Adams-Bashforth update of one particle at time index `i`, where
`a`, `b` are the previous-step velocity components `u_nm1(n)`, `v_nm1(n)`
(`Dsys_Anal.cpp` lines 134–135). -/
def abP (u v : Vel) (dt ti : ℚ) (i : ℕ) (a b : ℚ) (p : Particle) :
    Particle :=
  { x := p.x.set (i + 1)
      (p.x.getD i 0 +
        dt * ((3 / 2) * u ti (p.x.getD i 0) (p.y.getD i 0) - (1 / 2) * a)),
    y := p.y.set (i + 1)
      (p.y.getD i 0 +
        dt * ((3 / 2) * v ti (p.x.getD i 0) (p.y.getD i 0) - (1 / 2) * b)) }

/-- The body of `Dsys_Anal::MarchEE`'s inner loop at time index `i` with
time value `ti`: one Euler update of every particle, reading slot `i` and
writing slot `i + 1`. -/
def stepEE (u v : Vel) (dt ti : ℚ) (i : ℕ) (ps : List Particle) :
    List Particle :=
  ps.map (eulerP u v dt ti i)

/-- `Dsys_Anal::MarchEE`'s outer loop: time indices `0, …, k-1` in order,
each step completing for all particles before the next begins. -/
def runEE (u v : Vel) (dt : ℚ) (t : List ℚ) (k : ℕ) (ps : List Particle) :
    List Particle :=
  (List.range k).foldl (fun a i => stepEE u v dt (t.getD i 0) i a) ps

/-- `Dsys_Anal::MarchEE`. -/
def MarchEE (s : Dsys) : Dsys :=
  { s with parts := runEE s.u s.v s.dt s.t s.t_count s.parts }

/-- The running state of `Dsys_Anal::MarchAB`: the particle store plus
the previous-step velocity caches `u_nm1`, `v_nm1`. -/
structure ABState where
  ps : List Particle
  cu : List ℚ
  cv : List ℚ

/-- `Dsys_Anal::MarchAB`'s inner loop over the particles at time index
`i`: particle `n` takes an Euler step when `i = 0` and an
Adams-Bashforth step with cache slot `n` otherwise.  The recursion walks
the store and the caches in lock step. -/
def stepABparts (u v : Vel) (dt ti : ℚ) (i : ℕ) :
    List Particle → List ℚ → List ℚ → List Particle
  | [], _, _ => []
  | p :: ps, cu, cv =>
      (if i = 0 then eulerP u v dt ti i p
       else abP u v dt ti i (cu.headD 0) (cv.headD 0) p) ::
        stepABparts u v dt ti i ps cu.tail cv.tail

/-- The cache written by `MarchAB`'s inner loop: after time index `i`,
slot `n` holds the velocity component evaluated at `(t(i), x(i), y(i))`
of particle `n` (lines 139–140: `u_nm1(n) = u_n`). -/
def stepABcache (w : Vel) (ti : ℚ) (i : ℕ) : List Particle → List ℚ
  | [] => []
  | p :: ps => w ti (p.x.getD i 0) (p.y.getD i 0) :: stepABcache w ti i ps

/-- One full time step of `Dsys_Anal::MarchAB`. -/
def stepAB (u v : Vel) (dt ti : ℚ) (i : ℕ) (st : ABState) : ABState :=
  { ps := stepABparts u v dt ti i st.ps st.cu st.cv,
    cu := stepABcache u ti i st.ps,
    cv := stepABcache v ti i st.ps }

/-- `Dsys_Anal::MarchAB`'s outer loop over the time indices. -/
def runAB (u v : Vel) (dt : ℚ) (t : List ℚ) (k : ℕ) (st : ABState) :
    ABState :=
  (List.range k).foldl (fun a i => stepAB u v dt (t.getD i 0) i a) st

/-- The state `MarchAB` starts from: the particle store plus the freshly
allocated caches `VectorXd u_nm1(parts.size())`, `v_nm1(parts.size())`,
whose uninitialized contents are modelled by `ju`, `jv`. -/
def abInit (s : Dsys) (ju jv : ℕ → ℚ) : ABState :=
  { ps := s.parts,
    cu := (List.range s.parts.length).map ju,
    cv := (List.range s.parts.length).map jv }

/-- `Dsys_Anal::MarchAB`.  The junk cache contents are never read: the
`i = 0` step takes the Euler branch and overwrites every cache slot
before any later step reads it. -/
def MarchAB (s : Dsys) (ju jv : ℕ → ℚ) : Dsys :=
  { s with parts := (runAB s.u s.v s.dt s.t s.t_count (abInit s ju jv)).ps }

/-- A blank initial state used by the concrete witnesses. -/
def initState : Dsys :=
  { dt := 0, tmax := 0, t_count := 0, t := [], parts := [],
    t_set := false, ic_set := false,
    u := fun _ _ _ => 0, v := fun _ _ _ => 0 }

/-- A zero junk function for concrete witnesses. -/
def junk0 : ℕ → ℕ → ℚ := fun _ _ => 0

/-- A fully configured one-particle state (`dt = 1`, `tmax = 1`, so
`t_count = 2` and buffers have capacity `3`), used by the witnesses. -/
def demoState : Dsys :=
  { dt := 1, tmax := 1, t_count := 2, t := [0, 1],
    parts := [⟨[5, 0, 0], [7, 0, 0]⟩],
    t_set := true, ic_set := true,
    u := fun _ _ _ => 1, v := fun _ _ _ => 0 }

/-! ## C5: trajectory printing -/

/-- One `printf` emission of `Dsys_Anal::PrintTraj`: the header line
`"  t  x  y"` or one data row.  Text formatting (fixed width, two
decimals) is out of the model's scope; a row carries the numeric fields
printed. -/
inductive OutItem where
  | header : OutItem
  | row (t x y : ℚ) : OutItem
  deriving DecidableEq

/-- The loop of `Dsys_Anal::PrintTraj` over time indices `0 … k-1`:
returns the rows emitted so far and whether execution is still defined.
`parts[n]` with `n` out of range is undefined behaviour
(`std::vector::operator[]`), modelled by aborting with flag `false`
while keeping the output already produced; the reads `t(i)`, `x(i)`,
`y(i)` stay total (`getD`) since the claims only exercise them on
configured states where they are in bounds. -/
def printRows (s : Dsys) (n : ℕ) : ℕ → List OutItem × Bool
  | 0 => ([], true)
  | k + 1 =>
    match printRows s n k with
    | (out, false) => (out, false)
    | (out, true) =>
      match s.parts[n]? with
      | none => (out, false)
      | some p =>
        (out ++ [OutItem.row (s.t.getD k 0) (p.x.getD k 0) (p.y.getD k 0)],
         true)

/-- `Dsys_Anal::PrintTraj`: prints the header unconditionally (before the
loop and before any bounds issue can arise), then one row per time index
in `[0, t_count)`. -/
def PrintTraj (s : Dsys) (n : ℕ) : List OutItem × Bool :=
  (OutItem.header :: (printRows s n s.t_count).1, (printRows s n s.t_count).2)

/-! ## C6/C7: JSON export -/

/-- The structured document produced by the serialization library,
modelled as a tree (the model keeps the source's insertion order of the
object fields). -/
inductive Json where
  | num (q : ℚ) : Json
  | arr (elems : List Json) : Json
  | obj (fields : List (String × Json)) : Json

/-- The document built by `Dsys_Anal::ExportData` lines 159–173:
`j["t"] = t`, then `j["parts"][n]["x"] = parts[n].x` and
`j["parts"][n]["y"] = parts[n].y` in store index order. -/
def encodeDsys (s : Dsys) : Json :=
  Json.obj
    [("t", Json.arr (s.t.map Json.num)),
     ("parts", Json.arr (s.parts.map fun p =>
        Json.obj [("x", Json.arr (p.x.map Json.num)),
                  ("y", Json.arr (p.y.map Json.num))]))]

/-- One particle of the parsed document. -/
structure PartDoc where
  x : List ℚ
  y : List ℚ

instance : Inhabited PartDoc := ⟨⟨[], []⟩⟩

/-- The parsed export document: the `t` array and the per-particle
arrays. -/
structure TrajDoc where
  t : List ℚ
  parts : List PartDoc

def parseNumList : List Json → Option (List ℚ)
  | [] => some []
  | Json.num q :: rest => (parseNumList rest).map (fun l => q :: l)
  | _ => none

def parseNums : Json → Option (List ℚ)
  | Json.arr js => parseNumList js
  | _ => none

def parsePartDoc : Json → Option PartDoc
  | Json.obj [("x", xj), ("y", yj)] => do
      let xs ← parseNums xj
      let ys ← parseNums yj
      some ⟨xs, ys⟩
  | _ => none

def parsePartDocs : List Json → Option (List PartDoc)
  | [] => some []
  | j :: rest => do
      let p ← parsePartDoc j
      let ps ← parsePartDocs rest
      some (p :: ps)

/-- Parser for the export schema
`{ "t": [...], "parts": [ { "x": [...], "y": [...] }, ... ] }`. -/
def parseDoc : Json → Option TrajDoc
  | Json.obj [("t", tj), ("parts", Json.arr pjs)] => do
      let ts ← parseNums tj
      let ps ← parsePartDocs pjs
      some ⟨ts, ps⟩
  | _ => none

/-- `Dsys_Anal::ExportData`: builds the document and streams it to
`std::ofstream outfile(filename)`.  The file system is modelled by the
flag `canOpen`.  When the path cannot be opened the stream has its
failbit set, `operator<<` becomes a no-op, nothing is written and no
exception escapes — the call returns normally.  Result: the document
written to the file (if any) and the error surfaced to the caller
(always `none` in this source). -/
def ExportData (s : Dsys) (canOpen : Bool) : Option Json × Option String :=
  ((if canOpen then some (encodeDsys s) else none), none)

/-- Bounds-checked Euler update: every Eigen coefficient access of the
source (`t(i)` aside, handled by the run loop) is checked — reads
`x(i)`, `y(i)` must be in range and the writes `x(i+1)`, `y(i+1)` must
be in range — otherwise the step is undefined (`none`). -/
def eulerPc (u v : Vel) (dt ti : ℚ) (i : ℕ) (p : Particle) :
    Option Particle := do
  let xi ← p.x[i]?
  let yi ← p.y[i]?
  if i + 1 < p.x.length ∧ i + 1 < p.y.length then
    some { x := p.x.set (i + 1) (xi + dt * u ti xi yi),
           y := p.y.set (i + 1) (yi + dt * v ti xi yi) }
  else none

/-- Bounds-checked Adams-Bashforth update (same checks as `eulerPc`). -/
def abPc (u v : Vel) (dt ti : ℚ) (i : ℕ) (a b : ℚ) (p : Particle) :
    Option Particle := do
  let xi ← p.x[i]?
  let yi ← p.y[i]?
  if i + 1 < p.x.length ∧ i + 1 < p.y.length then
    some { x := p.x.set (i + 1) (xi + dt * ((3 / 2) * u ti xi yi - (1 / 2) * a)),
           y := p.y.set (i + 1) (yi + dt * ((3 / 2) * v ti xi yi - (1 / 2) * b)) }
  else none

/-- Bounds-checked inner loop of `MarchEE`. -/
def stepEEc (u v : Vel) (dt ti : ℚ) (i : ℕ) :
    List Particle → Option (List Particle)
  | [] => some []
  | p :: ps => do
      let q ← eulerPc u v dt ti i p
      let rest ← stepEEc u v dt ti i ps
      some (q :: rest)

/-- Bounds-checked outer loop of `MarchEE`: the read `t(i)` is also
checked. -/
def runEEc (u v : Vel) (dt : ℚ) (t : List ℚ) :
    ℕ → List Particle → Option (List Particle)
  | 0, ps => some ps
  | k + 1, ps => do
      let ps' ← runEEc u v dt t k ps
      let ti ← t[k]?
      stepEEc u v dt ti k ps'

/-- Bounds-checked `MarchEE`. -/
def MarchEEc (s : Dsys) : Option Dsys :=
  (runEEc s.u s.v s.dt s.t s.t_count s.parts).map
    (fun ps => { s with parts := ps })

/-- Bounds-checked inner loop of `MarchAB`: the cache accesses
`u_nm1(n)`, `v_nm1(n)` are also bounds-checked — the recursion demands a
cache entry for every particle (a missing entry is an out-of-range Eigen
access, `none`). -/
def stepABc (u v : Vel) (dt ti : ℚ) (i : ℕ) :
    List Particle → List ℚ → List ℚ → Option ABState
  | [], [], [] => some { ps := [], cu := [], cv := [] }
  | p :: ps, a :: cu, b :: cv => do
      let xi ← p.x[i]?
      let yi ← p.y[i]?
      let q ← (if i = 0 then eulerPc u v dt ti i p else abPc u v dt ti i a b p)
      let rest ← stepABc u v dt ti i ps cu cv
      some { ps := q :: rest.ps,
             cu := u ti xi yi :: rest.cu,
             cv := v ti xi yi :: rest.cv }
  | _, _, _ => none

/-- Bounds-checked outer loop of `MarchAB`. -/
def runABc (u v : Vel) (dt : ℚ) (t : List ℚ) :
    ℕ → ABState → Option ABState
  | 0, st => some st
  | k + 1, st => do
      let st' ← runABc u v dt t k st
      let ti ← t[k]?
      stepABc u v dt ti k st'.ps st'.cu st'.cv

/-- Bounds-checked `MarchAB`. -/
def MarchABc (s : Dsys) (ju jv : ℕ → ℚ) : Option Dsys :=
  (runABc s.u s.v s.dt s.t s.t_count (abInit s ju jv)).map
    (fun st => { s with parts := st.ps })

/-! ## Basic lemmas about the configuration calls -/

theorem ResizeParts_t (s : Dsys) (junk : ℕ → ℕ → ℚ) :
    (ResizeParts s junk).t = s.t := rfl

theorem SetTime_t (s : Dsys) (a b : ℚ) (junk : ℕ → ℕ → ℚ) :
    (SetTime s a b junk).t =
      (List.range ⌊b / a + 1⌋₊).map (fun i : ℕ => a * (i : ℚ)) := by
  simp only [SetTime]
  split <;> rfl

theorem SetTimeCore_parts (s : Dsys) (a b : ℚ) :
    (SetTimeCore s a b).parts = s.parts := rfl

theorem SetICsCore_parts (s : Dsys) (x0 y0 : List ℚ) :
    (SetICsCore s x0 y0).parts =
      (List.range x0.length).map
        (fun n => Particle.mk [x0.getD n 0] [y0.getD n 0]) := rfl

theorem conservativeResize_length (l : List ℚ) (m : ℕ) (junk : ℕ → ℚ) :
    (conservativeResize l m junk).length = m := by
  simp [conservativeResize]

theorem getD_map_range {α : Type} (f : ℕ → α) (m k : ℕ)
    (hk : k < m) (d : α) :
    ((List.range m).map f).getD k d = f k := by
  simp [List.getD_eq_getElem?_getD, List.getElem?_map, List.getElem?_range hk]

theorem conservativeResize_getD (l : List ℚ) (m : ℕ) (junk : ℕ → ℚ)
    (k : ℕ) (hk : k < m) :
    (conservativeResize l m junk).getD k 0 =
      if k < l.length then l.getD k 0 else junk k := by
  rw [conservativeResize, getD_map_range _ _ _ hk]

/-! ## C3: the time grid -/

/-- C3: after `SetTime` with `dt > 0` and `tmax ≥ 0`, the time sequence
has length `⌊tmax/dt⌋ + 1`, starts at `0`, satisfies `times i = i * dt`,
and is strictly increasing. -/
theorem SetTime_time_grid (s : Dsys) (dt tmax : ℚ) (junk : ℕ → ℕ → ℚ)
    (hdt : 0 < dt) (htmax : 0 ≤ tmax) :
    (SetTime s dt tmax junk).t.length = ⌊tmax / dt⌋₊ + 1 ∧
    (SetTime s dt tmax junk).t.getD 0 0 = 0 ∧
    (∀ i, i < (SetTime s dt tmax junk).t.length →
      (SetTime s dt tmax junk).t.getD i 0 = (i : ℚ) * dt) ∧
    (∀ i j, i < j → j < (SetTime s dt tmax junk).t.length →
      (SetTime s dt tmax junk).t.getD i 0 < (SetTime s dt tmax junk).t.getD j 0) := by
  have hquot : (0:ℚ) ≤ tmax / dt := div_nonneg htmax (le_of_lt hdt)
  have hfloor : ⌊tmax / dt + 1⌋₊ = ⌊tmax / dt⌋₊ + 1 := Nat.floor_add_one hquot
  rw [SetTime_t, hfloor]
  refine ⟨by simp, ?_, ?_, ?_⟩
  · rw [getD_map_range _ _ 0 (Nat.succ_pos _)]; simp
  · intro i hi
    rw [List.length_map, List.length_range] at hi
    rw [getD_map_range _ _ i hi]; ring
  · intro i j hij hj
    rw [List.length_map, List.length_range] at hj
    rw [getD_map_range _ _ i (lt_trans hij hj), getD_map_range _ _ j hj]
    have hc : (i : ℚ) < (j : ℚ) := by exact_mod_cast hij
    exact mul_lt_mul_of_pos_left hc hdt

/-- Witness for C3 at `dt = 1`, `tmax = 1`. -/
theorem SetTime_time_grid_witness :
    (0:ℚ) < 1 ∧ (0:ℚ) ≤ 1 ∧
    (SetTime initState 1 1 (fun _ _ => 0)).t.length = ⌊(1:ℚ) / 1⌋₊ + 1 := by
  refine ⟨one_pos, zero_le_one, ?_⟩
  exact (SetTime_time_grid initState 1 1 _ one_pos zero_le_one).1

/-! ## C4: mismatched initial conditions -/

/-- C4: `SetICs` with mismatched lengths throws `invalid_argument` before
touching any state (the pair's state component is the input state
unchanged); with equal lengths it succeeds (no error). -/
theorem SetICs_invalid_argument (s : Dsys) (x0 y0 : List ℚ)
    (junk : ℕ → ℕ → ℚ) :
    (x0.length ≠ y0.length →
      SetICs s x0 y0 junk = (s, some "Mismatched IC Vectors")) ∧
    (x0.length = y0.length → (SetICs s x0 y0 junk).2 = none) := by
  constructor
  · intro h
    simp only [SetICs, if_pos h]
  · intro h
    simp only [SetICs, h, ne_eq, not_true_eq_false, if_false]
    split <;> rfl

/-- Witness for C4: one x-coordinate against two y-coordinates fails and
leaves the state untouched; equal lengths succeed. -/
theorem SetICs_invalid_argument_witness :
    ([(0:ℚ)].length ≠ ([0, 1] : List ℚ).length) ∧
    SetICs initState [0] [0, 1] junk0 =
      (initState, some "Mismatched IC Vectors") ∧
    ([(0:ℚ)].length = [(3:ℚ)].length ∧
      (SetICs initState [0] [3] junk0).2 = none) :=
  ⟨by simp,
   (SetICs_invalid_argument initState [0] [0, 1] junk0).1 (by simp),
   by simp,
   (SetICs_invalid_argument initState [0] [3] junk0).2 (by simp)⟩

/-! ## C8: time-grid reconfiguration preserves leading samples -/

theorem ResizeParts_getP (s : Dsys) (junk : ℕ → ℕ → ℚ) (n : ℕ)
    (hn : n < s.parts.length) :
    getP (ResizeParts s junk) n =
      { x := conservativeResize (getP s n).x (s.t_count + 1) (junk n),
        y := conservativeResize (getP s n).y (s.t_count + 1) (junk n) } := by
  simp [ResizeParts, getP, List.getD_eq_getElem?_getD, List.getElem?_map,
    List.getElem?_range hn]

theorem ResizeParts_parts_length (s : Dsys) (junk : ℕ → ℕ → ℚ) :
    (ResizeParts s junk).parts.length = s.parts.length := by
  simp [ResizeParts]

/-- C8: reconfiguring the time grid while particles exist reallocates
every particle's buffers to the new capacity `t_count + 1` and leaves
the entries below `min (old length) (new capacity)` unchanged. -/
theorem SetTime_preserves_leading (s : Dsys) (dt' tmax' : ℚ)
    (junk : ℕ → ℕ → ℚ) (hic : s.ic_set = true)
    (hdt : 0 < dt') (htm : 0 ≤ tmax') (n : ℕ) (hn : n < s.parts.length) :
    (getP (SetTime s dt' tmax' junk) n).x.length =
        (SetTime s dt' tmax' junk).t_count + 1 ∧
    (getP (SetTime s dt' tmax' junk) n).y.length =
        (SetTime s dt' tmax' junk).t_count + 1 ∧
    (∀ k, k < min (getP s n).x.length ((SetTime s dt' tmax' junk).t_count + 1) →
      (getP (SetTime s dt' tmax' junk) n).x.getD k 0 = (getP s n).x.getD k 0) ∧
    (∀ k, k < min (getP s n).y.length ((SetTime s dt' tmax' junk).t_count + 1) →
      (getP (SetTime s dt' tmax' junk) n).y.getD k 0 = (getP s n).y.getD k 0) := by
  have hres : SetTime s dt' tmax' junk =
      ResizeParts (SetTimeCore s dt' tmax') junk := by
    have hflag : ((SetTimeCore s dt' tmax').t_set &&
        (SetTimeCore s dt' tmax').ic_set) = true := by
      simp [SetTimeCore, hic]
    simp only [SetTime, hflag, if_true]
  have hcount : (SetTime s dt' tmax' junk).t_count = ⌊tmax' / dt' + 1⌋₊ := by
    rw [hres]; rfl
  have hn' : n < (SetTimeCore s dt' tmax').parts.length := by
    rw [SetTimeCore_parts]; exact hn
  have hget : getP (SetTime s dt' tmax' junk) n =
      { x := conservativeResize (getP s n).x (⌊tmax' / dt' + 1⌋₊ + 1) (junk n),
        y := conservativeResize (getP s n).y (⌊tmax' / dt' + 1⌋₊ + 1) (junk n) } := by
    rw [hres, ResizeParts_getP (SetTimeCore s dt' tmax') junk n hn']
    rfl
  rw [hget, hcount]
  refine ⟨conservativeResize_length _ _ _, conservativeResize_length _ _ _, ?_, ?_⟩
  · intro k hk
    rcases lt_min_iff.mp hk with ⟨hk1, hk2⟩
    rw [conservativeResize_getD _ _ _ _ hk2, if_pos hk1]
  · intro k hk
    rcases lt_min_iff.mp hk with ⟨hk1, hk2⟩
    rw [conservativeResize_getD _ _ _ _ hk2, if_pos hk1]

/-- Witness for C8: regrowing `demoState`'s grid to `tmax = 3` keeps the
already-computed sample at slot `0`. -/
theorem SetTime_preserves_leading_witness :
    demoState.ic_set = true ∧ (0:ℚ) < 1 ∧ (0:ℚ) ≤ 3 ∧
    0 < demoState.parts.length ∧
    0 < min (getP demoState 0).x.length ((SetTime demoState 1 3 junk0).t_count + 1) ∧
    (getP (SetTime demoState 1 3 junk0) 0).x.getD 0 0 =
      (getP demoState 0).x.getD 0 0 := by
  refine ⟨rfl, one_pos, by norm_num, by simp [demoState], by simp [demoState, getP], ?_⟩
  exact (SetTime_preserves_leading demoState 1 3 junk0 rfl one_pos (by norm_num)
    0 (by simp [demoState])).2.2.1 0 (by simp [demoState, getP])

/-! ## C9: re-setting initial conditions resets all trajectories -/

/-- C9: a successful `SetICs` leaves exactly `x0.length` particles whose
slot-0 entries are the initial conditions, and the result is independent
of whatever particle data the store held before the call: every
previously computed trajectory sample is discarded. -/
theorem SetICsCore_length (s : Dsys) (x0 y0 : List ℚ) :
    (SetICsCore s x0 y0).parts.length = x0.length := by
  rw [SetICsCore_parts]; simp

theorem getP_SetICsCore (s : Dsys) (x0 y0 : List ℚ) (n : ℕ)
    (hn : n < x0.length) :
    getP (SetICsCore s x0 y0) n = ⟨[x0.getD n 0], [y0.getD n 0]⟩ := by
  unfold getP
  rw [SetICsCore_parts]
  simp [List.getD_eq_getElem?_getD, List.getElem?_map, List.getElem?_range hn]

theorem SetICs_resets (s : Dsys) (x0 y0 : List ℚ) (junk : ℕ → ℕ → ℚ)
    (hlen : x0.length = y0.length) :
    ((SetICs s x0 y0 junk).1.parts.length = x0.length) ∧
    (∀ n, n < x0.length →
      (getP (SetICs s x0 y0 junk).1 n).x.getD 0 0 = x0.getD n 0 ∧
      (getP (SetICs s x0 y0 junk).1 n).y.getD 0 0 = y0.getD n 0) ∧
    (∀ q : List Particle,
      (SetICs { s with parts := q } x0 y0 junk).1 = (SetICs s x0 y0 junk).1) := by
  have hcond : ¬ (x0.length ≠ y0.length) := by simp [hlen]
  have hsplit : SetICs s x0 y0 junk =
      if (SetICsCore s x0 y0).t_set && (SetICsCore s x0 y0).ic_set
      then (ResizeParts (SetICsCore s x0 y0) junk, none)
      else (SetICsCore s x0 y0, none) := by
    simp only [SetICs, if_neg hcond]
  refine ⟨?_, ?_, ?_⟩
  · rw [hsplit]
    split <;> dsimp only
    · rw [ResizeParts_parts_length, SetICsCore_length]
    · rw [SetICsCore_length]
  · intro n hn
    have hn' : n < (SetICsCore s x0 y0).parts.length := by
      rw [SetICsCore_length]; exact hn
    rw [hsplit]
    split <;> dsimp only
    · rw [ResizeParts_getP (SetICsCore s x0 y0) junk n hn',
        getP_SetICsCore s x0 y0 n hn]
      constructor <;>
        · dsimp only
          rw [conservativeResize_getD _ _ _ _ (Nat.succ_pos _)]
          simp
    · rw [getP_SetICsCore s x0 y0 n hn]
      exact ⟨rfl, rfl⟩
  · intro q
    simp only [SetICs, if_neg hcond]
    rfl

/-- Witness for C9: re-setting `demoState`'s initial conditions to
`([9], [4])` yields one particle starting at `(9, 4)`, the same state a
store with empty particle data would produce. -/
theorem SetICs_resets_witness :
    ([(9:ℚ)].length = [(4:ℚ)].length) ∧
    ((SetICs demoState [9] [4] junk0).1.parts.length = [(9:ℚ)].length) ∧
    (0 < [(9:ℚ)].length ∧
      (getP (SetICs demoState [9] [4] junk0).1 0).x.getD 0 0 = [(9:ℚ)].getD 0 0) ∧
    (SetICs { demoState with parts := [] } [9] [4] junk0).1 =
      (SetICs demoState [9] [4] junk0).1 :=
  ⟨rfl,
   (SetICs_resets demoState [9] [4] junk0 rfl).1,
   ⟨by simp, ((SetICs_resets demoState [9] [4] junk0 rfl).2.1 0 (by simp)).1⟩,
   (SetICs_resets demoState [9] [4] junk0 rfl).2.2 []⟩

/-! ## C1: Explicit Euler correctness -/

theorem getD_map_of_lt {α β : Type} (f : α → β) (l : List α) (n : ℕ)
    (hn : n < l.length) (d : β) (d' : α) :
    (l.map f).getD n d = f (l.getD n d') := by
  simp [List.getD_eq_getElem?_getD, List.getElem?_map,
    List.getElem?_eq_getElem hn]

theorem getD_set_ne (l : List ℚ) (i j : ℕ) (a : ℚ) (h : i ≠ j) :
    (l.set i a).getD j 0 = l.getD j 0 := by
  simp [List.getD_eq_getElem?_getD, List.getElem?_set_ne h]

theorem getD_set_self (l : List ℚ) (i : ℕ) (a : ℚ) (h : i < l.length) :
    (l.set i a).getD i 0 = a := by
  simp [List.getD_eq_getElem?_getD, List.getElem?_set_self h]

theorem runEE_succ (u v : Vel) (dt : ℚ) (t : List ℚ) (k : ℕ)
    (ps : List Particle) :
    runEE u v dt t (k + 1) ps =
      stepEE u v dt (t.getD k 0) k (runEE u v dt t k ps) := by
  unfold runEE
  rw [List.range_succ, List.foldl_append]
  rfl

theorem stepEE_length (u v : Vel) (dt ti : ℚ) (i : ℕ) (ps : List Particle) :
    (stepEE u v dt ti i ps).length = ps.length := by
  simp [stepEE]

theorem stepEE_pAt (u v : Vel) (dt ti : ℚ) (i : ℕ) (ps : List Particle)
    (n : ℕ) (hn : n < ps.length) :
    pAt (stepEE u v dt ti i ps) n = eulerP u v dt ti i (pAt ps n) := by
  unfold stepEE pAt
  exact getD_map_of_lt _ ps n hn default default

theorem runEE_invariant (u v : Vel) (dt : ℚ) (t : List ℚ) (k : ℕ)
    (ps : List Particle) :
    (runEE u v dt t k ps).length = ps.length ∧
    ∀ n, n < ps.length →
      (pAt (runEE u v dt t k ps) n).x.length = (pAt ps n).x.length ∧
      (pAt (runEE u v dt t k ps) n).y.length = (pAt ps n).y.length := by
  induction k with
  | zero => exact ⟨rfl, fun n _ => ⟨rfl, rfl⟩⟩
  | succ k ih =>
    rw [runEE_succ]
    refine ⟨by rw [stepEE_length]; exact ih.1, fun n hn => ?_⟩
    have hn2 : n < (runEE u v dt t k ps).length := by rw [ih.1]; exact hn
    rw [stepEE_pAt u v dt (t.getD k 0) k _ n hn2]
    exact ⟨by simpa [eulerP] using (ih.2 n hn).1,
           by simpa [eulerP] using (ih.2 n hn).2⟩

theorem runEE_stable (u v : Vel) (dt : ℚ) (t : List ℚ) (ps : List Particle)
    (m k K : ℕ) (hmk : m ≤ k) (hkK : k ≤ K) (n : ℕ) :
    (pAt (runEE u v dt t K ps) n).x.getD m 0 =
      (pAt (runEE u v dt t k ps) n).x.getD m 0 ∧
    (pAt (runEE u v dt t K ps) n).y.getD m 0 =
      (pAt (runEE u v dt t k ps) n).y.getD m 0 := by
  induction K with
  | zero =>
    have hk0 : k = 0 := Nat.le_zero.mp hkK
    subst hk0
    exact ⟨rfl, rfl⟩
  | succ K ih =>
    rcases eq_or_lt_of_le hkK with heq | hlt
    · subst heq
      exact ⟨rfl, rfl⟩
    · have hkK' : k ≤ K := Nat.lt_succ_iff.mp hlt
      have ih' := ih hkK'
      rw [runEE_succ]
      by_cases hn : n < (runEE u v dt t K ps).length
      · rw [stepEE_pAt u v dt (t.getD K 0) K _ n hn]
        have hne : (K + 1 : ℕ) ≠ m := by omega
        constructor
        · simp only [eulerP]
          rw [getD_set_ne _ _ _ _ hne]
          exact ih'.1
        · simp only [eulerP]
          rw [getD_set_ne _ _ _ _ hne]
          exact ih'.2
      · have hd : pAt (stepEE u v dt (t.getD K 0) K (runEE u v dt t K ps)) n
            = default := by
          unfold pAt
          apply List.getD_eq_default
          rw [stepEE_length]
          omega
        have hd2 : pAt (runEE u v dt t K ps) n = default := by
          unfold pAt
          apply List.getD_eq_default
          omega
        rw [hd, ← hd2]
        exact ih'

/-- C1: for a fully configured state, `MarchEE` performs, at every time
index `i < t_count` and for every particle `n`, exactly one Explicit
Euler update: slot `i+1` of each buffer equals slot `i` plus
`dt` times the velocity component evaluated at `(t(i), x(i), y(i))`.
The time-then-particle iteration order of the source is what makes this
hold: slot `i` is final before any step reads it. -/
theorem MarchEE_euler_step (s : Dsys) (hready : Ready s) (i n : ℕ)
    (hi : i < s.t_count) (hn : n < s.parts.length) :
    (getP (MarchEE s) n).x.getD (i + 1) 0 =
      (getP (MarchEE s) n).x.getD i 0 +
        s.dt * s.u (s.t.getD i 0) ((getP (MarchEE s) n).x.getD i 0)
          ((getP (MarchEE s) n).y.getD i 0) ∧
    (getP (MarchEE s) n).y.getD (i + 1) 0 =
      (getP (MarchEE s) n).y.getD i 0 +
        s.dt * s.v (s.t.getD i 0) ((getP (MarchEE s) n).x.getD i 0)
          ((getP (MarchEE s) n).y.getD i 0) := by
  have hfinal : getP (MarchEE s) n =
      pAt (runEE s.u s.v s.dt s.t s.t_count s.parts) n := rfl
  have hinv := runEE_invariant s.u s.v s.dt s.t i s.parts
  have hn2 : n < (runEE s.u s.v s.dt s.t i s.parts).length := by
    rw [hinv.1]; exact hn
  have hxlen : (pAt (runEE s.u s.v s.dt s.t i s.parts) n).x.length =
      s.t_count + 1 := by
    rw [(hinv.2 n hn).1]; exact (hready.2 n hn).1
  have hylen : (pAt (runEE s.u s.v s.dt s.t i s.parts) n).y.length =
      s.t_count + 1 := by
    rw [(hinv.2 n hn).2]; exact (hready.2 n hn).2
  have hstep := stepEE_pAt s.u s.v s.dt (s.t.getD i 0) i
    (runEE s.u s.v s.dt s.t i s.parts) n hn2
  have htop : pAt (runEE s.u s.v s.dt s.t (i + 1) s.parts) n =
      pAt (stepEE s.u s.v s.dt (s.t.getD i 0) i
        (runEE s.u s.v s.dt s.t i s.parts)) n := by
    rw [runEE_succ]
  have hstab1 := runEE_stable s.u s.v s.dt s.t s.parts (i + 1) (i + 1)
    s.t_count (le_refl _) hi n
  have hstab0 := runEE_stable s.u s.v s.dt s.t s.parts i i s.t_count
    (le_refl _) (le_of_lt hi) n
  rw [hfinal, hstab1.1, hstab1.2, hstab0.1, hstab0.2, htop, hstep]
  simp only [eulerP]
  constructor
  · rw [getD_set_self _ _ _ (by rw [hxlen]; omega)]
  · rw [getD_set_self _ _ _ (by rw [hylen]; omega)]

theorem demoState_ready : Ready demoState := by
  refine ⟨rfl, ?_⟩
  intro n hn
  have hn0 : n = 0 := Nat.lt_one_iff.mp hn
  subst hn0
  exact ⟨rfl, rfl⟩

/-- Witness for C1 on `demoState` at `i = 0`, `n = 0`. -/
theorem MarchEE_euler_step_witness :
    Ready demoState ∧ 0 < demoState.t_count ∧ 0 < demoState.parts.length ∧
    (getP (MarchEE demoState) 0).x.getD 1 0 =
      (getP (MarchEE demoState) 0).x.getD 0 0 +
        demoState.dt * demoState.u (demoState.t.getD 0 0)
          ((getP (MarchEE demoState) 0).x.getD 0 0)
          ((getP (MarchEE demoState) 0).y.getD 0 0) :=
  ⟨demoState_ready, Nat.succ_pos 1, Nat.succ_pos 0,
   (MarchEE_euler_step demoState demoState_ready 0 0 (Nat.succ_pos 1)
     (Nat.succ_pos 0)).1⟩

/-! ## C2: Adams-Bashforth correctness -/

theorem headD_eq_getD (l : List ℚ) : l.headD 0 = l.getD 0 0 := by
  cases l <;> rfl

theorem tail_getD (l : List ℚ) (n : ℕ) :
    l.tail.getD n 0 = l.getD (n + 1) 0 := by
  cases l <;> rfl

theorem runEE_zero (u v : Vel) (dt : ℚ) (t : List ℚ) (ps : List Particle) :
    runEE u v dt t 0 ps = ps := rfl

theorem runAB_zero (u v : Vel) (dt : ℚ) (t : List ℚ) (st : ABState) :
    runAB u v dt t 0 st = st := rfl

theorem abInit_ps (s : Dsys) (ju jv : ℕ → ℚ) :
    (abInit s ju jv).ps = s.parts := rfl

theorem runAB_succ (u v : Vel) (dt : ℚ) (t : List ℚ) (k : ℕ)
    (st : ABState) :
    runAB u v dt t (k + 1) st =
      stepAB u v dt (t.getD k 0) k (runAB u v dt t k st) := by
  unfold runAB
  rw [List.range_succ, List.foldl_append]
  rfl

theorem stepABparts_length (u v : Vel) (dt ti : ℚ) (i : ℕ)
    (ps : List Particle) (cu cv : List ℚ) :
    (stepABparts u v dt ti i ps cu cv).length = ps.length := by
  induction ps generalizing cu cv with
  | nil => rfl
  | cons p ps ih => simp [stepABparts, ih]

theorem stepABparts_pAt (u v : Vel) (dt ti : ℚ) (i : ℕ)
    (ps : List Particle) (cu cv : List ℚ) (n : ℕ) (hn : n < ps.length) :
    pAt (stepABparts u v dt ti i ps cu cv) n =
      if i = 0 then eulerP u v dt ti i (pAt ps n)
      else abP u v dt ti i (cu.getD n 0) (cv.getD n 0) (pAt ps n) := by
  induction ps generalizing n cu cv with
  | nil => exact absurd hn (by simp)
  | cons p ps ih =>
    cases n with
    | zero =>
      simp only [stepABparts, pAt, List.getD_cons_zero, headD_eq_getD]
    | succ n =>
      have hn' : n < ps.length := by simpa using hn
      simp only [stepABparts, pAt, List.getD_cons_succ]
      have := ih cu.tail cv.tail n hn'
      unfold pAt at this
      rw [this, tail_getD, tail_getD]

theorem stepABcache_length (w : Vel) (ti : ℚ) (i : ℕ) (ps : List Particle) :
    (stepABcache w ti i ps).length = ps.length := by
  induction ps with
  | nil => rfl
  | cons p ps ih => simp [stepABcache, ih]

theorem stepABcache_getD (w : Vel) (ti : ℚ) (i : ℕ) (ps : List Particle)
    (n : ℕ) (hn : n < ps.length) :
    (stepABcache w ti i ps).getD n 0 =
      w ti ((pAt ps n).x.getD i 0) ((pAt ps n).y.getD i 0) := by
  induction ps generalizing n with
  | nil => exact absurd hn (by simp)
  | cons p ps ih =>
    cases n with
    | zero => simp [stepABcache, pAt]
    | succ n =>
      have hn' : n < ps.length := by simpa using hn
      simp only [stepABcache, List.getD_cons_succ, pAt]
      have := ih n hn'
      unfold pAt at this
      rw [this]

theorem runAB_invariant (u v : Vel) (dt : ℚ) (t : List ℚ) (k : ℕ)
    (st : ABState) :
    (runAB u v dt t k st).ps.length = st.ps.length ∧
    ∀ n, n < st.ps.length →
      (pAt (runAB u v dt t k st).ps n).x.length = (pAt st.ps n).x.length ∧
      (pAt (runAB u v dt t k st).ps n).y.length = (pAt st.ps n).y.length := by
  induction k with
  | zero => exact ⟨rfl, fun n _ => ⟨rfl, rfl⟩⟩
  | succ k ih =>
    rw [runAB_succ]
    constructor
    · simp only [stepAB]
      rw [stepABparts_length]
      exact ih.1
    · intro n hn
      have hn2 : n < (runAB u v dt t k st).ps.length := by
        rw [ih.1]; exact hn
      simp only [stepAB]
      rw [stepABparts_pAt u v dt (t.getD k 0) k _ _ _ n hn2]
      rcases ih.2 n hn with ⟨ihx, ihy⟩
      split
      · exact ⟨by simpa [eulerP] using ihx, by simpa [eulerP] using ihy⟩
      · exact ⟨by simpa [abP] using ihx, by simpa [abP] using ihy⟩

theorem runAB_stable (u v : Vel) (dt : ℚ) (t : List ℚ) (st : ABState)
    (m k K : ℕ) (hmk : m ≤ k) (hkK : k ≤ K) (n : ℕ) :
    (pAt (runAB u v dt t K st).ps n).x.getD m 0 =
      (pAt (runAB u v dt t k st).ps n).x.getD m 0 ∧
    (pAt (runAB u v dt t K st).ps n).y.getD m 0 =
      (pAt (runAB u v dt t k st).ps n).y.getD m 0 := by
  induction K with
  | zero =>
    have hk0 : k = 0 := Nat.le_zero.mp hkK
    subst hk0
    exact ⟨rfl, rfl⟩
  | succ K ih =>
    rcases eq_or_lt_of_le hkK with heq | hlt
    · subst heq
      exact ⟨rfl, rfl⟩
    · have hkK' : k ≤ K := Nat.lt_succ_iff.mp hlt
      have ih' := ih hkK'
      rw [runAB_succ]
      by_cases hn : n < (runAB u v dt t K st).ps.length
      · simp only [stepAB]
        rw [stepABparts_pAt u v dt (t.getD K 0) K _ _ _ n hn]
        have hne : (K + 1 : ℕ) ≠ m := by omega
        split
        · constructor
          · simp only [eulerP]
            rw [getD_set_ne _ _ _ _ hne]
            exact ih'.1
          · simp only [eulerP]
            rw [getD_set_ne _ _ _ _ hne]
            exact ih'.2
        · constructor
          · simp only [abP]
            rw [getD_set_ne _ _ _ _ hne]
            exact ih'.1
          · simp only [abP]
            rw [getD_set_ne _ _ _ _ hne]
            exact ih'.2
      · have hd : pAt (stepAB u v dt (t.getD K 0) K
            (runAB u v dt t K st)).ps n = default := by
          unfold pAt
          apply List.getD_eq_default
          simp only [stepAB]
          rw [stepABparts_length]
          omega
        have hd2 : pAt (runAB u v dt t K st).ps n = default := by
          unfold pAt
          apply List.getD_eq_default
          omega
        rw [hd, ← hd2]
        exact ih'

/-- C2: for a fully configured state, `MarchAB`'s step at time index `0`
writes exactly the values `MarchEE` writes at slot `1` for identical
inputs (Euler bootstrap), and at every time index `i = j + 1 ≥ 1` it
writes slot `i + 1` as `slot i + dt * (3/2 * u_i - 1/2 * u_{i-1})`,
where `u_{i-1}` is the velocity component evaluated at step `i - 1`
(time `t(i-1)`, positions of slot `i - 1`), and likewise for `y`/`v`. -/
theorem MarchAB_bootstrap_and_step (s : Dsys) (ju jv : ℕ → ℚ)
    (hready : Ready s) (n : ℕ) (hn : n < s.parts.length) :
    (0 < s.t_count →
      (getP (MarchAB s ju jv) n).x.getD 1 0 = (getP (MarchEE s) n).x.getD 1 0 ∧
      (getP (MarchAB s ju jv) n).y.getD 1 0 = (getP (MarchEE s) n).y.getD 1 0) ∧
    (∀ j, j + 1 < s.t_count →
      (getP (MarchAB s ju jv) n).x.getD (j + 1 + 1) 0 =
        (getP (MarchAB s ju jv) n).x.getD (j + 1) 0 +
          s.dt * ((3 / 2) * s.u (s.t.getD (j + 1) 0)
              ((getP (MarchAB s ju jv) n).x.getD (j + 1) 0)
              ((getP (MarchAB s ju jv) n).y.getD (j + 1) 0) -
            (1 / 2) * s.u (s.t.getD j 0)
              ((getP (MarchAB s ju jv) n).x.getD j 0)
              ((getP (MarchAB s ju jv) n).y.getD j 0)) ∧
      (getP (MarchAB s ju jv) n).y.getD (j + 1 + 1) 0 =
        (getP (MarchAB s ju jv) n).y.getD (j + 1) 0 +
          s.dt * ((3 / 2) * s.v (s.t.getD (j + 1) 0)
              ((getP (MarchAB s ju jv) n).x.getD (j + 1) 0)
              ((getP (MarchAB s ju jv) n).y.getD (j + 1) 0) -
            (1 / 2) * s.v (s.t.getD j 0)
              ((getP (MarchAB s ju jv) n).x.getD j 0)
              ((getP (MarchAB s ju jv) n).y.getD j 0))) := by
  have hgA : getP (MarchAB s ju jv) n =
      pAt (runAB s.u s.v s.dt s.t s.t_count (abInit s ju jv)).ps n := rfl
  have hgE : getP (MarchEE s) n =
      pAt (runEE s.u s.v s.dt s.t s.t_count s.parts) n := rfl
  have hxlen : (pAt s.parts n).x.length = s.t_count + 1 := (hready.2 n hn).1
  have hylen : (pAt s.parts n).y.length = s.t_count + 1 := (hready.2 n hn).2
  constructor
  · intro h1
    have hstabA := runAB_stable s.u s.v s.dt s.t (abInit s ju jv) 1 1
      s.t_count (le_refl 1) h1 n
    have hstabE := runEE_stable s.u s.v s.dt s.t s.parts 1 1 s.t_count
      (le_refl 1) h1 n
    have hA1 : pAt (runAB s.u s.v s.dt s.t 1 (abInit s ju jv)).ps n =
        eulerP s.u s.v s.dt (s.t.getD 0 0) 0 (pAt s.parts n) := by
      rw [runAB_succ, runAB_zero]
      simp only [stepAB, abInit_ps]
      rw [stepABparts_pAt s.u s.v s.dt (s.t.getD 0 0) 0 _ _ _ n hn]
      rw [if_pos rfl]
    have hE1 : pAt (runEE s.u s.v s.dt s.t 1 s.parts) n =
        eulerP s.u s.v s.dt (s.t.getD 0 0) 0 (pAt s.parts n) := by
      rw [runEE_succ, runEE_zero]
      exact stepEE_pAt s.u s.v s.dt (s.t.getD 0 0) 0 _ n hn
    rw [hgA, hgE, hstabA.1, hstabA.2, hstabE.1, hstabE.2, hA1, hE1]
    exact ⟨rfl, rfl⟩
  · intro j hj
    have hstab2 := runAB_stable s.u s.v s.dt s.t (abInit s ju jv)
      (j + 1 + 1) (j + 1 + 1) s.t_count (le_refl _) hj n
    have hstab1 := runAB_stable s.u s.v s.dt s.t (abInit s ju jv)
      (j + 1) (j + 1) s.t_count (le_refl _) (by omega) n
    have hstab0 := runAB_stable s.u s.v s.dt s.t (abInit s ju jv)
      j j s.t_count (le_refl _) (by omega) n
    have hinv1 := runAB_invariant s.u s.v s.dt s.t (j + 1) (abInit s ju jv)
    have hn1 : n < (runAB s.u s.v s.dt s.t (j + 1) (abInit s ju jv)).ps.length := by
      rw [hinv1.1]; exact hn
    have hinv0 := runAB_invariant s.u s.v s.dt s.t j (abInit s ju jv)
    have hn0 : n < (runAB s.u s.v s.dt s.t j (abInit s ju jv)).ps.length := by
      rw [hinv0.1]; exact hn
    have hxlen1 : (pAt (runAB s.u s.v s.dt s.t (j + 1) (abInit s ju jv)).ps n).x.length
        = s.t_count + 1 := by
      rw [(hinv1.2 n hn).1]; exact hxlen
    have hylen1 : (pAt (runAB s.u s.v s.dt s.t (j + 1) (abInit s ju jv)).ps n).y.length
        = s.t_count + 1 := by
      rw [(hinv1.2 n hn).2]; exact hylen
    have hstep : pAt (runAB s.u s.v s.dt s.t (j + 1 + 1) (abInit s ju jv)).ps n =
        abP s.u s.v s.dt (s.t.getD (j + 1) 0) (j + 1)
          ((runAB s.u s.v s.dt s.t (j + 1) (abInit s ju jv)).cu.getD n 0)
          ((runAB s.u s.v s.dt s.t (j + 1) (abInit s ju jv)).cv.getD n 0)
          (pAt (runAB s.u s.v s.dt s.t (j + 1) (abInit s ju jv)).ps n) := by
      rw [runAB_succ]
      simp only [stepAB]
      rw [stepABparts_pAt s.u s.v s.dt (s.t.getD (j + 1) 0) (j + 1) _ _ _ n hn1]
      rw [if_neg (Nat.succ_ne_zero j)]
    have hcu : (runAB s.u s.v s.dt s.t (j + 1) (abInit s ju jv)).cu.getD n 0 =
        s.u (s.t.getD j 0)
          ((pAt (runAB s.u s.v s.dt s.t j (abInit s ju jv)).ps n).x.getD j 0)
          ((pAt (runAB s.u s.v s.dt s.t j (abInit s ju jv)).ps n).y.getD j 0) := by
      rw [runAB_succ]
      simp only [stepAB]
      exact stepABcache_getD s.u (s.t.getD j 0) j _ n hn0
    have hcv : (runAB s.u s.v s.dt s.t (j + 1) (abInit s ju jv)).cv.getD n 0 =
        s.v (s.t.getD j 0)
          ((pAt (runAB s.u s.v s.dt s.t j (abInit s ju jv)).ps n).x.getD j 0)
          ((pAt (runAB s.u s.v s.dt s.t j (abInit s ju jv)).ps n).y.getD j 0) := by
      rw [runAB_succ]
      simp only [stepAB]
      exact stepABcache_getD s.v (s.t.getD j 0) j _ n hn0
    rw [hgA, hstab2.1, hstab2.2, hstab1.1, hstab1.2, hstab0.1, hstab0.2,
      hstep, hcu, hcv]
    simp only [abP]
    constructor
    · rw [getD_set_self _ _ _ (by rw [hxlen1]; omega)]
    · rw [getD_set_self _ _ _ (by rw [hylen1]; omega)]

/-- Witness for C2 on `demoState` at `n = 0`: the bootstrap equality and
the Adams-Bashforth step at `j = 0`. -/
theorem MarchAB_bootstrap_and_step_witness :
    Ready demoState ∧ 0 < demoState.parts.length ∧ 0 < demoState.t_count ∧
    (getP (MarchAB demoState (fun _ => 0) (fun _ => 0)) 0).x.getD 1 0 =
      (getP (MarchEE demoState) 0).x.getD 1 0 ∧
    (0 + 1 < demoState.t_count) ∧
    (getP (MarchAB demoState (fun _ => 0) (fun _ => 0)) 0).x.getD (0 + 1 + 1) 0 =
      (getP (MarchAB demoState (fun _ => 0) (fun _ => 0)) 0).x.getD (0 + 1) 0 +
        demoState.dt * ((3 / 2) * demoState.u (demoState.t.getD (0 + 1) 0)
            ((getP (MarchAB demoState (fun _ => 0) (fun _ => 0)) 0).x.getD (0 + 1) 0)
            ((getP (MarchAB demoState (fun _ => 0) (fun _ => 0)) 0).y.getD (0 + 1) 0) -
          (1 / 2) * demoState.u (demoState.t.getD 0 0)
            ((getP (MarchAB demoState (fun _ => 0) (fun _ => 0)) 0).x.getD 0 0)
            ((getP (MarchAB demoState (fun _ => 0) (fun _ => 0)) 0).y.getD 0 0)) := by
  have hpl : 0 < demoState.parts.length := by simp [demoState]
  have htc : 0 < demoState.t_count := by simp [demoState]
  have htc1 : 0 + 1 < demoState.t_count := by simp [demoState]
  exact ⟨demoState_ready, hpl, htc,
    ((MarchAB_bootstrap_and_step demoState (fun _ => 0) (fun _ => 0)
      demoState_ready 0 hpl).1 htc).1, htc1,
    ((MarchAB_bootstrap_and_step demoState (fun _ => 0) (fun _ => 0)
      demoState_ready 0 hpl).2 0 htc1).1⟩

theorem getP_eq_pAt (s : Dsys) (n : ℕ) : getP s n = pAt s.parts n := rfl

theorem printRows_valid (s : Dsys) (n : ℕ) (hn : n < s.parts.length)
    (k : ℕ) :
    printRows s n k =
      ((List.range k).map (fun i =>
        OutItem.row (s.t.getD i 0) ((getP s n).x.getD i 0)
          ((getP s n).y.getD i 0)), true) := by
  have hsome : s.parts[n]? = some (getP s n) := by
    rw [List.getElem?_eq_getElem hn]
    unfold getP
    rw [List.getD_eq_getElem?_getD, List.getElem?_eq_getElem hn]
    rfl
  induction k with
  | zero => simp [printRows]
  | succ k ih =>
    rw [printRows, ih, hsome]
    simp [List.range_succ]

theorem printRows_oob (s : Dsys) (n : ℕ) (hn : s.parts.length ≤ n) (k : ℕ)
    (hk : 1 ≤ k) :
    printRows s n k = ([], false) := by
  have hnone : s.parts[n]? = none := by
    rw [List.getElem?_eq_none_iff]
    exact hn
  induction k with
  | zero => omega
  | succ k ih =>
    cases Nat.eq_or_lt_of_le hk with
    | inl h1 =>
      have hk0 : k = 0 := by omega
      subst hk0
      rw [printRows]
      simp [printRows, hnone]
    | inr h1 =>
      rw [printRows, ih (by omega)]

/-- C5 (amended): `PrintTraj` performs no bounds check at all.  For a
valid particle index it returns the header plus one row per time index
with `t(i)`, `x(i)`, `y(i)`.  For an out-of-range index it has already
emitted the header before the first out-of-bounds `parts[n]` access
(undefined behaviour) occurs — so, far from failing cleanly with no
output, it produces the header and then reads out of bounds (whenever
the grid is non-trivial, `1 ≤ t_count`). -/
theorem PrintTraj_spec (s : Dsys) (n : ℕ) :
    (n < s.parts.length →
      PrintTraj s n =
        (OutItem.header :: (List.range s.t_count).map (fun i =>
          OutItem.row (s.t.getD i 0) ((getP s n).x.getD i 0)
            ((getP s n).y.getD i 0)), true)) ∧
    (s.parts.length ≤ n → 1 ≤ s.t_count →
      PrintTraj s n = ([OutItem.header], false)) := by
  constructor
  · intro hn
    unfold PrintTraj
    rw [printRows_valid s n hn]
  · intro hn ht
    unfold PrintTraj
    rw [printRows_oob s n hn s.t_count ht]

/-- Witness for C5's amended theorem: the valid index `0` and the
out-of-range index `5` on `demoState`. -/
theorem PrintTraj_spec_witness :
    (0 < demoState.parts.length ∧
      PrintTraj demoState 0 =
        (OutItem.header :: (List.range demoState.t_count).map (fun i =>
          OutItem.row (demoState.t.getD i 0) ((getP demoState 0).x.getD i 0)
            ((getP demoState 0).y.getD i 0)), true)) ∧
    (demoState.parts.length ≤ 5 ∧ 1 ≤ demoState.t_count ∧
      PrintTraj demoState 5 = ([OutItem.header], false)) :=
  ⟨⟨by simp [demoState], (PrintTraj_spec demoState 0).1 (by simp [demoState])⟩,
   ⟨by simp [demoState], by simp [demoState],
    (PrintTraj_spec demoState 5).2 (by simp [demoState]) (by simp [demoState])⟩⟩

/-- C5 counterexample: on the configured one-particle state, calling
`PrintTraj` with the invalid index `5` does produce output — the header
line is emitted before the out-of-bounds particle access — contradicting
the claim that an out-of-range index fails with `OutOfRange` and
produces no output (the source contains no bounds check and no
`OutOfRange` condition at all). -/
theorem PrintTraj_oob_produces_output :
    (PrintTraj demoState 5).1 = [OutItem.header] ∧
    (PrintTraj demoState 5).1 ≠ [] := by
  have h : printRows demoState 5 demoState.t_count = ([], false) :=
    printRows_oob demoState 5 (by simp [demoState]) demoState.t_count
      (by simp [demoState])
  unfold PrintTraj
  rw [h]
  exact ⟨rfl, by simp⟩

/-- C6 (amended): `ExportData` surfaces no error condition whatsoever.
On a writable path it writes the document; when the path cannot be
opened the write is silently dropped (failed stream), nothing is
written, and the call still returns normally with no error. -/
theorem ExportData_spec (s : Dsys) :
    (ExportData s true).1 = some (encodeDsys s) ∧
    (ExportData s false).1 = none ∧
    ∀ b : Bool, (ExportData s b).2 = none := by
  refine ⟨rfl, rfl, ?_⟩
  intro b
  cases b <;> rfl

/-- C6 counterexample: on an unopenable path, `ExportData` returns with
no error surfaced (and nothing written) — there is no `IOError`
condition in the source, which never inspects the stream state. -/
theorem ExportData_no_ioerror :
    ExportData demoState false = (none, none) := rfl

theorem parseNumList_encode (l : List ℚ) :
    parseNumList (l.map Json.num) = some l := by
  induction l with
  | nil => rfl
  | cons q rest ih => simp [parseNumList, ih]

theorem parseNums_encode (l : List ℚ) :
    parseNums (Json.arr (l.map Json.num)) = some l := by
  rw [parseNums, parseNumList_encode]

theorem parsePartDoc_encode (p : Particle) :
    parsePartDoc (Json.obj [("x", Json.arr (p.x.map Json.num)),
      ("y", Json.arr (p.y.map Json.num))]) = some ⟨p.x, p.y⟩ := by
  simp [parsePartDoc, parseNums_encode]

theorem parsePartDocs_encode (ps : List Particle) :
    parsePartDocs (ps.map fun p =>
      Json.obj [("x", Json.arr (p.x.map Json.num)),
                ("y", Json.arr (p.y.map Json.num))]) =
      some (ps.map fun p => PartDoc.mk p.x p.y) := by
  induction ps with
  | nil => rfl
  | cons p rest ih => simp [parsePartDocs, parsePartDoc_encode, ih]

/-- C7: parsing the exported document recovers the in-memory data
exactly — the `t` array is the time vector and every particle's `x`/`y`
arrays are its buffers, in store index order — and for a fully
configured state the parsed `t` array has `t_count` entries while each
particle's arrays have `t_count + 1` entries. -/
theorem export_roundtrip (s : Dsys) (hready : Ready s) :
    parseDoc (encodeDsys s) =
      some ⟨s.t, s.parts.map (fun p => PartDoc.mk p.x p.y)⟩ ∧
    s.t.length = s.t_count ∧
    (s.parts.map (fun p => PartDoc.mk p.x p.y)).length = s.parts.length ∧
    (∀ n, n < s.parts.length →
      ((s.parts.map (fun p => PartDoc.mk p.x p.y)).getD n default).x.length =
        s.t_count + 1 ∧
      ((s.parts.map (fun p => PartDoc.mk p.x p.y)).getD n default).y.length =
        s.t_count + 1) := by
  refine ⟨?_, hready.1, by simp, ?_⟩
  · simp [parseDoc, encodeDsys, parseNums_encode, parsePartDocs_encode]
  · intro n hn
    rw [getD_map_of_lt (fun p => PartDoc.mk p.x p.y) s.parts n hn default default]
    exact ⟨(hready.2 n hn).1, (hready.2 n hn).2⟩

/-- Witness for C7 on `demoState`. -/
theorem export_roundtrip_witness :
    Ready demoState ∧
    parseDoc (encodeDsys demoState) =
      some ⟨demoState.t, demoState.parts.map (fun p => PartDoc.mk p.x p.y)⟩ ∧
    (0 < demoState.parts.length ∧
      ((demoState.parts.map (fun p => PartDoc.mk p.x p.y)).getD 0 default).x.length =
        demoState.t_count + 1) :=
  ⟨demoState_ready, (export_roundtrip demoState demoState_ready).1,
   by simp [demoState],
   ((export_roundtrip demoState demoState_ready).2.2.2 0 (by simp [demoState])).1⟩

/-! ## C10: all integrator buffer accesses are in bounds -/

theorem eulerPc_eq (u v : Vel) (dt ti : ℚ) (i : ℕ) (p : Particle)
    (hx : i + 1 < p.x.length) (hy : i + 1 < p.y.length) :
    eulerPc u v dt ti i p = some (eulerP u v dt ti i p) := by
  have hix : i < p.x.length := by omega
  have hiy : i < p.y.length := by omega
  simp [eulerPc, eulerP, List.getElem?_eq_getElem hix,
    List.getElem?_eq_getElem hiy, hx, hy, List.getD_eq_getElem?_getD]

theorem abPc_eq (u v : Vel) (dt ti : ℚ) (i : ℕ) (a b : ℚ) (p : Particle)
    (hx : i + 1 < p.x.length) (hy : i + 1 < p.y.length) :
    abPc u v dt ti i a b p = some (abP u v dt ti i a b p) := by
  have hix : i < p.x.length := by omega
  have hiy : i < p.y.length := by omega
  simp [abPc, abP, List.getElem?_eq_getElem hix,
    List.getElem?_eq_getElem hiy, hx, hy, List.getD_eq_getElem?_getD]

theorem mem_lengths (l : List Particle) (L : ℕ)
    (h : ∀ n, n < l.length →
      (pAt l n).x.length = L ∧ (pAt l n).y.length = L) :
    ∀ p ∈ l, p.x.length = L ∧ p.y.length = L := by
  intro p hp
  rcases List.getElem_of_mem hp with ⟨n, hn, hpn⟩
  have h2 := h n hn
  have hpa : pAt l n = p := by
    unfold pAt
    rw [List.getD_eq_getElem?_getD, List.getElem?_eq_getElem hn, hpn]
    rfl
  rwa [hpa] at h2

theorem stepEEc_eq (u v : Vel) (dt ti : ℚ) (i L : ℕ) (hiL : i + 1 < L) :
    ∀ ps : List Particle, (∀ p ∈ ps, p.x.length = L ∧ p.y.length = L) →
      stepEEc u v dt ti i ps = some (stepEE u v dt ti i ps) := by
  intro ps
  induction ps with
  | nil => intro _; rfl
  | cons p rest ih =>
    intro h
    have hp := h p (List.mem_cons_self p rest)
    have hrest := ih (fun q hq => h q (List.mem_cons_of_mem p hq))
    simp only [stepEEc]
    rw [eulerPc_eq u v dt ti i p (by omega) (by omega), hrest]
    simp [stepEE]

theorem runEEc_eq (u v : Vel) (dt : ℚ) (t : List ℚ) (L : ℕ) :
    ∀ (k : ℕ) (ps : List Particle),
      (∀ n, n < ps.length →
        (pAt ps n).x.length = L ∧ (pAt ps n).y.length = L) →
      k ≤ t.length → k < L →
      runEEc u v dt t k ps = some (runEE u v dt t k ps) := by
  intro k
  induction k with
  | zero => intro ps _ _ _; rfl
  | succ k ih =>
    intro ps hlen hk hkL
    have hrec := ih ps hlen (by omega) (by omega)
    have hik : k < t.length := by omega
    have htk : t[k]? = some (t.getD k 0) := by
      rw [List.getD_eq_getElem?_getD, List.getElem?_eq_getElem hik]
      rfl
    have hinv := runEE_invariant u v dt t k ps
    have hmem : ∀ p ∈ runEE u v dt t k ps,
        p.x.length = L ∧ p.y.length = L := by
      apply mem_lengths
      intro n hn
      have hn' : n < ps.length := by rw [← hinv.1]; exact hn
      rcases hinv.2 n hn' with ⟨h1, h2⟩
      rcases hlen n hn' with ⟨h3, h4⟩
      exact ⟨by rw [h1, h3], by rw [h2, h4]⟩
    have hstep := stepEEc_eq u v dt (t.getD k 0) k L (by omega)
      (runEE u v dt t k ps) hmem
    simp only [runEEc]
    rw [hrec, htk]
    show stepEEc u v dt (t.getD k 0) k (runEE u v dt t k ps) =
      some (runEE u v dt t (k + 1) ps)
    rw [hstep, runEE_succ]

theorem runAB_cache_length (u v : Vel) (dt : ℚ) (t : List ℚ) (k : ℕ)
    (st : ABState) (hcu : st.cu.length = st.ps.length)
    (hcv : st.cv.length = st.ps.length) :
    (runAB u v dt t k st).cu.length = st.ps.length ∧
    (runAB u v dt t k st).cv.length = st.ps.length := by
  cases k with
  | zero => exact ⟨hcu, hcv⟩
  | succ k =>
    rw [runAB_succ]
    simp only [stepAB]
    rw [stepABcache_length, stepABcache_length]
    have h := (runAB_invariant u v dt t k st).1
    exact ⟨h, h⟩

theorem stepABc_eq (u v : Vel) (dt ti : ℚ) (i L : ℕ) (hiL : i + 1 < L) :
    ∀ (ps : List Particle) (cu cv : List ℚ),
      (∀ p ∈ ps, p.x.length = L ∧ p.y.length = L) →
      cu.length = ps.length → cv.length = ps.length →
      stepABc u v dt ti i ps cu cv =
        some { ps := stepABparts u v dt ti i ps cu cv,
               cu := stepABcache u ti i ps,
               cv := stepABcache v ti i ps } := by
  intro ps
  induction ps with
  | nil =>
    intro cu cv _ hcu hcv
    cases cu with
    | nil =>
      cases cv with
      | nil => rfl
      | cons b cv => simp at hcv
    | cons a cu => simp at hcu
  | cons p rest ih =>
    intro cu cv h hcu hcv
    cases cu with
    | nil => simp at hcu
    | cons a cu =>
      cases cv with
      | nil => simp at hcv
      | cons b cv =>
        have hp := h p (List.mem_cons_self p rest)
        have hx : i < p.x.length := by omega
        have hy : i < p.y.length := by omega
        have hq : (if i = 0 then eulerPc u v dt ti i p
              else abPc u v dt ti i a b p) =
            some (if i = 0 then eulerP u v dt ti i p
              else abP u v dt ti i a b p) := by
          by_cases h0 : i = 0
          · rw [if_pos h0, if_pos h0,
              eulerPc_eq u v dt ti i p (by omega) (by omega)]
          · rw [if_neg h0, if_neg h0,
              abPc_eq u v dt ti i a b p (by omega) (by omega)]
        have hrest := ih cu cv
          (fun q hq' => h q (List.mem_cons_of_mem p hq'))
          (by simpa using hcu) (by simpa using hcv)
        simp only [stepABc]
        rw [List.getElem?_eq_getElem hx, List.getElem?_eq_getElem hy, hq,
          hrest]
        simp [stepABparts, stepABcache, List.getD_eq_getElem?_getD,
          List.getElem?_eq_getElem hx, List.getElem?_eq_getElem hy]

theorem runABc_eq (u v : Vel) (dt : ℚ) (t : List ℚ) (L : ℕ) :
    ∀ (K : ℕ) (st : ABState),
      (∀ n, n < st.ps.length →
        (pAt st.ps n).x.length = L ∧ (pAt st.ps n).y.length = L) →
      st.cu.length = st.ps.length → st.cv.length = st.ps.length →
      K ≤ t.length → K < L →
      runABc u v dt t K st = some (runAB u v dt t K st) := by
  intro K
  induction K with
  | zero => intro st _ _ _ _ _; rfl
  | succ k ih =>
    intro st hlen hcu hcv hk hkL
    have hrec := ih st hlen hcu hcv (by omega) (by omega)
    have hik : k < t.length := by omega
    have htk : t[k]? = some (t.getD k 0) := by
      rw [List.getD_eq_getElem?_getD, List.getElem?_eq_getElem hik]
      rfl
    have hinv := runAB_invariant u v dt t k st
    have hmem : ∀ p ∈ (runAB u v dt t k st).ps,
        p.x.length = L ∧ p.y.length = L := by
      apply mem_lengths
      intro n hn
      have hn' : n < st.ps.length := by rw [← hinv.1]; exact hn
      rcases hinv.2 n hn' with ⟨h1, h2⟩
      rcases hlen n hn' with ⟨h3, h4⟩
      exact ⟨by rw [h1, h3], by rw [h2, h4]⟩
    have hclen := runAB_cache_length u v dt t k st hcu hcv
    have hstep := stepABc_eq u v dt (t.getD k 0) k L (by omega)
      (runAB u v dt t k st).ps (runAB u v dt t k st).cu
      (runAB u v dt t k st).cv hmem
      (by rw [hclen.1, hinv.1]) (by rw [hclen.2, hinv.1])
    simp only [runABc]
    rw [hrec, htk]
    show stepABc u v dt (t.getD k 0) k (runAB u v dt t k st).ps
        (runAB u v dt t k st).cu (runAB u v dt t k st).cv =
      some (runAB u v dt t (k + 1) st)
    rw [hstep, runAB_succ]
    rfl

/-- C10: on a fully configured state (time vector of length
`t_count ≥ 1`, buffers of capacity `t_count + 1`) every buffer access of
both integrators is in bounds: the bounds-checked (`Option`-returning)
embeddings of `MarchEE` and `MarchAB` never take their out-of-bounds
branch and return exactly the unchecked results. -/
theorem March_in_bounds (s : Dsys) (ju jv : ℕ → ℚ) (hready : Ready s)
    (h1 : 1 ≤ s.t_count) :
    MarchEEc s = some (MarchEE s) ∧
    MarchABc s ju jv = some (MarchAB s ju jv) := by
  have hlen : ∀ n, n < s.parts.length →
      (pAt s.parts n).x.length = s.t_count + 1 ∧
      (pAt s.parts n).y.length = s.t_count + 1 := by
    intro n hn
    exact ⟨(hready.2 n hn).1, (hready.2 n hn).2⟩
  have htlen : s.t_count ≤ s.t.length := le_of_eq hready.1.symm
  constructor
  · unfold MarchEEc MarchEE
    rw [runEEc_eq s.u s.v s.dt s.t (s.t_count + 1) s.t_count s.parts hlen
      htlen (by omega)]
    rfl
  · unfold MarchABc MarchAB
    have hcu : (abInit s ju jv).cu.length = (abInit s ju jv).ps.length := by
      simp [abInit]
    have hcv : (abInit s ju jv).cv.length = (abInit s ju jv).ps.length := by
      simp [abInit]
    rw [runABc_eq s.u s.v s.dt s.t (s.t_count + 1) s.t_count
      (abInit s ju jv) hlen hcu hcv htlen (by omega)]
    rfl

/-- Witness for C10 on `demoState`. -/
theorem March_in_bounds_witness :
    Ready demoState ∧ 1 ≤ demoState.t_count ∧
    MarchEEc demoState = some (MarchEE demoState) ∧
    MarchABc demoState (fun _ => 1) (fun _ => 1) =
      some (MarchAB demoState (fun _ => 1) (fun _ => 1)) := by
  have h1 : 1 ≤ demoState.t_count := by simp [demoState]
  exact ⟨demoState_ready, h1,
    (March_in_bounds demoState (fun _ => 1) (fun _ => 1) demoState_ready h1).1,
    (March_in_bounds demoState (fun _ => 1) (fun _ => 1) demoState_ready h1).2⟩
